import Mathlib

/-!
Verification of the NetworkTool repository's concurrent probing and
output-normalization engine, as implemented in
`src/modules/network_diagnostics.py` and `src/modules/website_analysis.py`.

The Python code is shallowly embedded: the regex-based parsers are
implemented as deterministic scanners over `List Char` that realise the
backtracking semantics of the exact patterns appearing in the source;
Python floats are modelled as exact rationals; every external effect
(subprocess output capture, socket connects, reverse DNS, the `ipaddress`
library, thread-pool completion order) is an explicit oracle parameter,
with `Except`/`Option` encoding the possibility that the external call
raises.
-/

namespace NetworkTool

/-! ## Character classes and basic scanners -/

/-- Python's `\s` class (`re` whitespace) restricted to the characters that
can occur in captured command output. -/
def pyIsSpace (c : Char) : Bool :=
  c == ' ' || c == '\t' || c == '\n' || c == '\r' || c == '\x0b' || c == '\x0c'

/-- The `[0-9.]` character class used by the traceroute timing regexes. -/
def isNumDot (c : Char) : Bool := c.isDigit || c == '.'

/-- Numeric value of a digit run. -/
def digitsToNat (cs : List Char) : Nat :=
  cs.foldl (fun a c => a * 10 + (c.toNat - 48)) 0

/-- Match a literal character sequence, returning the rest of the input. -/
def lit : List Char → List Char → Option (List Char)
  | [], s => some s
  | p :: ps, c :: cs => if c == p then lit ps cs else none
  | _ :: _, [] => none

/-- Match a literal string. -/
def litS (p : String) (s : List Char) : Option (List Char) := lit p.data s

/-- `\s+`: at least one whitespace character, consumed greedily. -/
def ws1 : List Char → Option (List Char)
  | c :: cs => if pyIsSpace c then some (cs.dropWhile pyIsSpace) else none
  | [] => none

/-- `\d+` consumed greedily, returning its numeric value. -/
def digitsRun : List Char → Option (Nat × List Char)
  | s =>
    let ds := s.takeWhile Char.isDigit
    if ds.isEmpty then none else some (digitsToNat ds, s.dropWhile Char.isDigit)

/-- `(\d+\.\d+)` consumed greedily, as an exact rational. -/
def decimalRun (s : List Char) : Option (ℚ × List Char) :=
  let ip := s.takeWhile Char.isDigit
  if ip.isEmpty then none else
  match s.dropWhile Char.isDigit with
  | '.' :: r2 =>
    let fp := r2.takeWhile Char.isDigit
    if fp.isEmpty then none else
    some ((digitsToNat ip : ℚ) + (digitsToNat fp : ℚ) / (10 : ℚ) ^ fp.length,
      r2.dropWhile Char.isDigit)
  | _ => none

/-- `re.search` semantics: try the matcher at every start position, leftmost
match wins. -/
def searchPos (m : List Char → Option α) : List Char → Option α
  | [] => m []
  | c :: cs =>
    match m (c :: cs) with
    | some v => some v
    | none => searchPos m cs

/-- Substring containment, as Python's `in` on strings. -/
def containsSub (pat : String) (cs : List Char) : Bool :=
  (searchPos (litS pat) cs).isSome

/-- Python `str.strip()` (whitespace from both ends). -/
def pyStrip (cs : List Char) : List Char :=
  ((cs.dropWhile pyIsSpace).reverse.dropWhile pyIsSpace).reverse

/-- Python `str.splitlines()` for `\n`, `\r\n` and `\r` terminators: each
terminator emits the segment before it; a final unterminated segment is
emitted only when nonempty. -/
def splitLinesAux : List Char → List Char → List (List Char)
  | [], cur => if cur.isEmpty then [] else [cur.reverse]
  | '\r' :: '\n' :: rest, cur => cur.reverse :: splitLinesAux rest []
  | '\n' :: rest, cur => cur.reverse :: splitLinesAux rest []
  | '\r' :: rest, cur => cur.reverse :: splitLinesAux rest []
  | c :: rest, cur => splitLinesAux rest (c :: cur)

def pySplitlines (s : List Char) : List (List Char) := splitLinesAux s []

/-- Python `float(s)` on a string drawn from the `[0-9.]` class: defined when
there is at least one digit and at most one dot, as an exact rational;
`none` models the `ValueError` it otherwise raises. -/
def pyFloat (cs : List Char) : Option ℚ :=
  if cs.all isNumDot && cs.any Char.isDigit && cs.count '.' ≤ 1 then
    let ip := cs.takeWhile Char.isDigit
    let rest := cs.dropWhile Char.isDigit
    match rest with
    | '.' :: fp => some ((digitsToNat ip : ℚ) + (digitsToNat fp : ℚ) / (10 : ℚ) ^ fp.length)
    | _ => some (digitsToNat ip : ℚ)
  else none

/-- Python `int(s)` as used on the dotted components of an address: optional
surrounding whitespace, optional sign, then at least one digit (digit-group
underscores are not modelled; they cannot occur in `str(ip)` output).
`none` models the `ValueError` on anything else. -/
def pyInt (s : List Char) : Option Int :=
  match pyStrip s with
  | '-' :: ds => if !ds.isEmpty && ds.all Char.isDigit then some (-(digitsToNat ds : Int)) else none
  | '+' :: ds => if !ds.isEmpty && ds.all Char.isDigit then some (digitsToNat ds : Int) else none
  | ds => if !ds.isEmpty && ds.all Char.isDigit then some (digitsToNat ds : Int) else none

/-- Python `str.split('.')`: every separator emits the segment before it
and the final segment is always emitted (`"a."` gives `["a", ""]`). -/
def splitDotAux : List Char → List Char → List (List Char)
  | [], cur => [cur.reverse]
  | '.' :: rest, cur => cur.reverse :: splitDotAux rest []
  | c :: rest, cur => splitDotAux rest (c :: cur)

def splitDot (cs : List Char) : List (List Char) := splitDotAux cs []

/-! ## Regex matchers of `network_diagnostics.py`

Each `...At` function realises one `re` pattern of the source at a fixed
start position; `searchPos` supplies the `re.search` scan.  Greedy
repetition plus the following literal is deterministic whenever the
repeated class and the literal's first character are disjoint, which holds
for every pattern below; the one backtracking point (`[^=]+ = ` in the
POSIX ping summary) is resolved in `eqGapAfterClass`. -/

/-- `Minimum = (\d+)ms, Maximum = (\d+)ms, Average = (\d+)ms`
(Windows ping summary, `latency_check`). Returns (min, max, avg). -/
def winTimesAt (s : List Char) : Option (Nat × Nat × Nat) := do
  let s ← litS "Minimum = " s
  let (mn, s) ← digitsRun s
  let s ← litS "ms, Maximum = " s
  let (mx, s) ← digitsRun s
  let s ← litS "ms, Average = " s
  let (av, s) ← digitsRun s
  let _ ← litS "ms" s
  pure (mn, mx, av)

/-- The `[^=]+ = ` portion of the POSIX ping summary pattern: at least one
non-`=` character, then the literal ` = `.  Since the class cannot consume
`=`, backtracking pins the literal to the first `=`, which must be
surrounded by spaces. -/
def seekEqGap : List Char → Option (List Char)
  | ' ' :: '=' :: ' ' :: rest => some rest
  | '=' :: _ => none
  | _ :: rest => seekEqGap rest
  | [] => none

/-- `[^=]+ = ` with the mandatory first class character consumed here. -/
def eqGapAfterClass : List Char → Option (List Char)
  | [] => none
  | c :: rest => if c == '=' then none else seekEqGap rest

/-- `min/avg/max/[^=]+ = (\d+\.\d+)/(\d+\.\d+)/(\d+\.\d+)`
(POSIX ping summary, `latency_check`). Returns (min, avg, max). -/
def posixTimesAt (s : List Char) : Option (ℚ × ℚ × ℚ) := do
  let s ← litS "min/avg/max/" s
  let s ← eqGapAfterClass s
  let (mn, s) ← decimalRun s
  let s ← litS "/" s
  let (av, s) ← decimalRun s
  let s ← litS "/" s
  let (mx, _) ← decimalRun s
  pure (mn, av, mx)

/-- `Sent = (\d+), Received = (\d+), Lost = (\d+)`
(Windows ping statistics, `packet_loss_analysis`). -/
def winPktAt (s : List Char) : Option (Nat × Nat × Nat) := do
  let s ← litS "Sent = " s
  let (sent, s) ← digitsRun s
  let s ← litS ", Received = " s
  let (recv, s) ← digitsRun s
  let s ← litS ", Lost = " s
  let (lost, _) ← digitsRun s
  pure (sent, recv, lost)

/-- The `[packets ]` character class. -/
def pktClass (c : Char) : Bool :=
  c == 'p' || c == 'a' || c == 'c' || c == 'k' || c == 'e' || c == 't' || c == 's' || c == ' '

/-- `(\d+) packets transmitted, (\d+) [packets ]*received`
(POSIX ping statistics, `packet_loss_analysis`).  `r` is outside the class,
so the greedy class run is followed directly by the literal. -/
def posixPktAt (s : List Char) : Option (Nat × Nat) := do
  let (sent, s) ← digitsRun s
  let s ← litS " packets transmitted, " s
  let (recv, s) ← digitsRun s
  let s ← litS " " s
  let _ ← litS "received" (s.dropWhile pktClass)
  pure (sent, recv)

def searchWinTimes (out : String) : Option (Nat × Nat × Nat) := searchPos winTimesAt out.data
def searchPosixTimes (out : String) : Option (ℚ × ℚ × ℚ) := searchPos posixTimesAt out.data
def searchWinPkt (out : String) : Option (Nat × Nat × Nat) := searchPos winPktAt out.data
def searchPosixPkt (out : String) : Option (Nat × Nat) := searchPos posixPktAt out.data

/-! ## `NetworkDiagnostics.latency_check` -/

/-- Result dict of `latency_check`. -/
structure LatencyResult where
  min : ℚ
  avg : ℚ
  max : ℚ
  error : Option String
deriving DecidableEq

/-- `NetworkDiagnostics.latency_check` (lines 112-150).  `pingOut` is the
outcome of `subprocess.check_output(f"ping ...", shell=True).decode()`:
`.error e` models the call raising, with `e` the exception text. -/
def latency_check (osName : String) (pingOut : Except String String) : LatencyResult :=
  match pingOut with
  | .error e => ⟨0, 0, 0, some e⟩
  | .ok output =>
    if osName == "Windows" then
      match searchWinTimes output with
      | some (mn, mx, av) => ⟨(mn : ℚ), (av : ℚ), (mx : ℚ), none⟩
      | none => ⟨0, 0, 0, none⟩
    else
      match searchPosixTimes output with
      | some (mn, av, mx) => ⟨mn, av, mx, none⟩
      | none => ⟨0, 0, 0, none⟩

/-! ## `NetworkDiagnostics.packet_loss_analysis` -/

/-- Result dict of `packet_loss_analysis`. -/
structure PacketLossResult where
  sent : Int
  received : Int
  lost : Int
  loss_percentage : ℚ
  error : Option String
deriving DecidableEq

/-- `NetworkDiagnostics.packet_loss_analysis` (lines 152-194).  The result
starts as `{"sent": packets, "received": 0, "lost": 0, "loss_percentage":
0.0}` and is mutated in place; a parsed `sent` of `0` makes
`lost / sent * 100` raise `ZeroDivisionError`, caught by the outer
`except`, which sets `loss_percentage` to 100 after the count fields were
already overwritten. -/
def packet_loss_analysis (osName : String) (packets : Int)
    (pingOut : Except String String) : PacketLossResult :=
  match pingOut with
  | .error e => ⟨packets, 0, 0, 100, some e⟩
  | .ok output =>
    if osName == "Windows" then
      match searchWinPkt output with
      | some (s, r, l) =>
        if s == 0 then ⟨0, (r : Int), (l : Int), 100, some "division by zero"⟩
        else ⟨(s : Int), (r : Int), (l : Int), ((l : ℚ) / (s : ℚ)) * 100, none⟩
      | none => ⟨packets, 0, 0, 0, none⟩
    else
      match searchPosixPkt output with
      | some (s, r) =>
        if s == 0 then ⟨0, (r : Int), -(r : Int), 100, some "division by zero"⟩
        else ⟨(s : Int), (r : Int), (s : Int) - (r : Int),
          (((s : ℚ) - (r : ℚ)) / (s : ℚ)) * 100, none⟩
      | none => ⟨packets, 0, 0, 0, none⟩

/-! ## `NetworkDiagnostics.route_tracing` -/

/-- One hop dict appended by `route_tracing`; `error` is `none` for parsed
hops and set only on the sentinel appended by the `except` block. -/
structure Hop where
  hop : Nat
  host : String
  ip : String
  time : ℚ
  error : Option String
deriving DecidableEq

/-- `(\d+|[*]+)`: a digit run or a star run, as the raw field text. -/
def starsOrDigits : List Char → Option (List Char × List Char)
  | s =>
    let ds := s.takeWhile Char.isDigit
    if !ds.isEmpty then some (ds, s.dropWhile Char.isDigit)
    else
      let st := s.takeWhile (fun c => c == '*')
      if !st.isEmpty then some (st, s.dropWhile (fun c => c == '*'))
      else none

/-- `\s+ms\s+` between a timing field and what follows. -/
def msGap (s : List Char) : Option (List Char) := do
  let s ← ws1 s
  let s ← litS "ms" s
  ws1 s

/-- `^\s*(\d+)\s+(\d+|[*]+)\s+ms\s+(\d+|[*]+)\s+ms\s+(\d+|[*]+)\s+ms\s+(.+)$`
(Windows tracert hop line), anchored at the line start by `^`.  Returns the
hop number, the three raw timing fields, and group 5 (the rest of the
line, nonempty). -/
def winHopAt (line : List Char) : Option (Nat × List Char × List Char × List Char × List Char) := do
  let s := line.dropWhile pyIsSpace
  let (n, s) ← digitsRun s
  let s ← ws1 s
  let (f1, s) ← starsOrDigits s
  let s ← msGap s
  let (f2, s) ← starsOrDigits s
  let s ← msGap s
  let (f3, s) ← starsOrDigits s
  let s ← msGap s
  if s.isEmpty then none else pure (n, f1, f2, f3, s)

/-- `^\s*(\d+)\s+([^\s]+)(?:\s+\(([^\)]+)\))?\s+(?:([0-9.]+)\s+ms\s+)+`
(POSIX traceroute hop line), anchored at the line start.  The `+` over the
timing group succeeds exactly when its first repetition does, so only that
repetition is checked; the per-attempt times are extracted separately with
`findall`.  Returns the hop number and group 2 (the address field). -/
def posixHopAt (line : List Char) : Option (Nat × List Char) := do
  let s := line.dropWhile pyIsSpace
  let (n, s) ← digitsRun s
  let s ← ws1 s
  let ip := s.takeWhile (fun c => !pyIsSpace c)
  if ip.isEmpty then none else do
  let s := s.dropWhile (fun c => !pyIsSpace c)
  let s ← ws1 s
  let s ← (match s with
    | '(' :: rest =>
      let content := rest.takeWhile (fun c => c != ')')
      if content.isEmpty then none else
      match rest.dropWhile (fun c => c != ')') with
      | ')' :: r3 => ws1 r3
      | _ => none
    | _ => some s)
  let run := s.takeWhile isNumDot
  if run.isEmpty then none else do
  let s ← ws1 (s.dropWhile isNumDot)
  let s ← litS "ms" s
  let _ ← ws1 s
  pure (n, ip)

/-- `\s+ms` after a timing run, as required by the `findall` pattern
`([0-9.]+)\s+ms` (no trailing whitespace requirement). -/
def msEnd (s : List Char) : Bool := (do
  let s ← ws1 s
  litS "ms" s).isSome

/-- `re.findall(r"([0-9.]+)\s+ms", line)`: the groups are exactly the
maximal `[0-9.]` runs that are followed by `\s+ms`.  (A failed attempt
inside a run fails for the same reason at every suffix of the run, and a
successful match consumes through `ms`, whose characters are outside the
class, so non-overlapping scanning never truncates a run.) -/
def findTimes (line : List Char) : List (List Char) :=
  (List.range line.length).filterMap (fun i =>
    let tail := line.drop i
    match tail with
    | c :: _ =>
      if isNumDot c && (i == 0 || !isNumDot (line.getD (i - 1) ' ')) then
        let run := tail.takeWhile isNumDot
        if msEnd (tail.dropWhile isNumDot) then some run else none
      else none
    | [] => none)

/-- `float` applied across a list of raw fields, left to right, as
`sum(map(float, times))` evaluates it; the error is the `ValueError`
text of the first failing conversion (Python quotes the literal). -/
def floatsOf : List (List Char) → Except String (List ℚ)
  | [] => .ok []
  | f :: fs =>
    match pyFloat f with
    | none => .error ("could not convert string to float: '" ++ f.asString ++ "'")
    | some q =>
      match floatsOf fs with
      | .error e => .error e
      | .ok qs => .ok (q :: qs)

/-- `^\d+\.\d+\.\d+\.\d+$`: the dotted-quad test guarding hostname
resolution. -/
def isDottedQuad (s : String) : Bool := (do
  let (_, r) ← digitsRun s.data
  let r ← litS "." r
  let (_, r) ← digitsRun r
  let r ← litS "." r
  let (_, r) ← digitsRun r
  let r ← litS "." r
  let (_, r) ← digitsRun r
  if r.isEmpty then some () else none).isSome

/-- The opportunistic reverse resolution: `hostname = ip_or_host`, then
`socket.gethostbyaddr` only for a dotted quad, with any exception
swallowed (`resolve ip = none` models the raise). -/
def resolveName (resolve : String → Option String) (ipOrHost : String) : String :=
  if isDottedQuad ipOrHost then
    match resolve ipOrHost with
    | some h => h
    | none => ipOrHost
  else ipOrHost

/-- Header lines skipped by the Windows branch. -/
def winSkipLine (line : List Char) : Bool :=
  containsSub "Tracing route" line || containsSub "over a maximum" line ||
    containsSub "Trace complete" line

/-- Processing of one Windows tracert line: `.ok none` when the line is
skipped or unmatched, `.error` when `float` raises on a multi-star field
(only a single `*` is filtered out by `t != "*"`). -/
def winLineHop (resolve : String → Option String) (line : List Char) :
    Except String (Option Hop) :=
  if winSkipLine line then .ok none
  else match winHopAt line with
  | none => .ok none
  | some (n, f1, f2, f3, rest) =>
    let times := [f1, f2, f3].filter (fun t => t != ['*'])
    let ipOrHost := (pyStrip rest).asString
    if times.isEmpty then
      .ok (some ⟨n, resolveName resolve ipOrHost, ipOrHost, 0, none⟩)
    else match floatsOf times with
    | .error e => .error e
    | .ok ts =>
      .ok (some ⟨n, resolveName resolve ipOrHost, ipOrHost, ts.sum / (ts.length : ℚ), none⟩)

/-- Processing of one POSIX traceroute line. -/
def posixLineHop (resolve : String → Option String) (line : List Char) :
    Except String (Option Hop) :=
  if containsSub "traceroute to" line then .ok none
  else match posixHopAt line with
  | none => .ok none
  | some (n, ipCs) =>
    let times := findTimes line
    let ip := ipCs.asString
    if times.isEmpty then
      .ok (some ⟨n, resolveName resolve ip, ip, 0, none⟩)
    else match floatsOf times with
    | .error e => .error e
    | .ok ts =>
      .ok (some ⟨n, resolveName resolve ip, ip, ts.sum / (ts.length : ℚ), none⟩)

/-- The sentinel appended by `route_tracing`'s `except` block. -/
def errorHop (e : String) : Hop := ⟨1, "Error", "Error", 0, some e⟩

/-- The parsing loop over the captured lines: on an exception it reports
the hops accumulated so far together with the exception text. -/
def traceLines (f : List Char → Except String (Option Hop)) :
    List (List Char) → List Hop → Except (List Hop × String) (List Hop)
  | [], hops => .ok hops
  | l :: ls, hops =>
    match f l with
    | .error e => .error (hops, e)
    | .ok none => traceLines f ls hops
    | .ok (some h) => traceLines f ls (hops ++ [h])

/-- `NetworkDiagnostics.route_tracing` (lines 196-286).  `traceOut` is the
outcome of the `tracert`/`traceroute` invocation; the `except` block
appends the sentinel hop to whatever was already parsed. -/
def route_tracing (osName : String) (resolve : String → Option String)
    (traceOut : Except String String) : List Hop :=
  match traceOut with
  | .error e => [errorHop e]
  | .ok output =>
    let lines := pySplitlines output.data
    let f := if osName == "Windows" then winLineHop resolve else posixLineHop resolve
    match traceLines f lines [] with
    | .ok hops => hops
    | .error (hops, e) => hops ++ [errorHop e]

/-! ## `NetworkDiagnostics.network_scan` -/

/-- One entry of `active_devices`. -/
structure Device where
  ip : String
  status : String
  hostname : String
deriving DecidableEq

/-- The scan result dict.  The invalid-subnet early return carries no
`total_active` key, so that field is optional. -/
structure ScanResult where
  active_devices : List Device
  total_scanned : Nat
  total_active : Option Nat
  error : Option String
deriving DecidableEq

/-- The inner `check_ip` worker (lines 312-328): `pingResp` is the
`os.system(ping ...)` exit status, `fqdn` is `socket.getfqdn` with `none`
modelling a raise (swallowed into `"N/A"`). -/
def check_ip (pingResp : String → Int) (fqdn : String → Option String)
    (ip_str : String) : Option Device :=
  let hostname :=
    match fqdn ip_str with
    | none => "N/A"
    | some h => if h == ip_str then "N/A" else h
  if pingResp ip_str == 0 then some ⟨ip_str, "Ativo", hostname⟩ else none

/-- The sort key `[int(part) for part in x["ip"].split('.')]`, defined when
every dotted component parses as a Python int. -/
def ipKeyChecked (ip : String) : Option (List Int) := (splitDot ip.data).mapM pyInt

/-- The sort key with the parse failure defaulted away; it agrees with
`ipKeyChecked` whenever the latter is defined, and `network_scan` only
sorts in that case. -/
def ipKey (ip : String) : List Int := (splitDot ip.data).map (fun p => (pyInt p).getD 0)

/-- Python's lexicographic `<=` on lists of ints, as used by `list.sort`
on the computed keys. -/
def lexLe : List Int → List Int → Bool
  | [], _ => true
  | _ :: _, [] => false
  | a :: l1, b :: l2 => if a < b then true else if b < a then false else lexLe l1 l2

/-- Comparison of two devices by their numeric address key. -/
def devLe (a b : Device) : Bool := lexLe (ipKey a.ip) (ipKey b.ip)

/-- Stable insertion of a device into an already sorted list: it goes
after every element not strictly greater, so elements with equal keys keep
their relative order, as in Python's stable `list.sort`. -/
def insertDev (a : Device) : List Device → List Device
  | [] => [a]
  | b :: l => if devLe a b && !devLe b a then a :: b :: l else b :: insertDev a l

/-- `results["active_devices"].sort(key=...)`: a stable sort by the
numeric component lists (Python's Timsort is modelled by stable insertion
sort, which computes the same list for a total preorder). -/
def sortDevices (ds : List Device) : List Device := ds.foldl (fun acc d => insertDev d acc) []

/-- Concurrency ceiling of the subnet sweep: `ThreadPoolExecutor(max_workers=20)`
in `network_scan` (line 338). -/
def networkScanMaxWorkers : Nat := 20

/-- `NetworkDiagnostics.network_scan` (lines 288-362).
`subnetHosts` is the outcome of `ipaddress.ip_network(subnet, strict=False)`
followed by `.hosts()` (`none` models the `ValueError` on a malformed
subnet); `order` is the completion order in which `as_completed` yields the
submitted futures (a permutation of the submitted hosts).  A `ValueError`
from `int()` inside the sort key lands in the outer `except`, which
discards the partial results. -/
def network_scan (subnet : String) (subnetHosts : Option (List String))
    (pingResp : String → Int) (fqdn : String → Option String)
    (order : List String) : ScanResult :=
  match subnetHosts with
  | none =>
    { active_devices := [], total_scanned := 0, total_active := none,
      error := some ("Subrede inválida: " ++ subnet) }
  | some allHosts =>
    let total_ips := min 254 allHosts.length
    let hosts := allHosts.take total_ips
    let devices := order.filterMap (check_ip pingResp fqdn)
    if (devices.map (fun d => ipKeyChecked d.ip)).all Option.isSome then
      let sorted := sortDevices devices
      { active_devices := sorted, total_scanned := hosts.length,
        total_active := some sorted.length, error := none }
    else
      -- `list.sort` computes the keys in list order, so the `ValueError`
      -- names the first component of the first device whose key fails.
      let bad := devices.findSome? (fun d => (splitDot d.ip.data).find? (fun p => (pyInt p).isNone))
      { active_devices := [], total_scanned := 0, total_active := some 0,
        error := some ("Erro ao escanear a rede: invalid literal for int() with base 10: '"
          ++ (bad.getD []).asString ++ "'") }

/-! ## `WebsiteAnalysis.scan_single_port` and `scan_ports` -/

/-- `WebsiteAnalysis.scan_single_port` (lines 132-150): `connectRes` is the
outcome of `sock.connect_ex((self.domain, port))` — `.ok code` the error
code it returns for C-level connect failures (refusal, timeout), `.error e`
an exception it raises (`socket.gaierror` when the domain cannot be
resolved, `OverflowError` when the port is outside 0-65535), which this
function does not catch. -/
def scan_single_port (connectRes : Except String Int) (port : Nat) :
    Except String (Nat × String) :=
  match connectRes with
  | .error e => .error e
  | .ok code => if code == 0 then .ok (port, "Open") else .ok (port, "Closed")

/-- Concurrency ceiling of the port sweep: `ThreadPoolExecutor(max_workers=10)`
in `scan_ports` (line 165). -/
def scanPortsMaxWorkers : Nat := 10

/-- Python dict assignment `results[port] = status` on an insertion-ordered
association list: update in place when the key exists, append otherwise. -/
def dictSet (d : List (Nat × String)) (k : Nat) (v : String) : List (Nat × String) :=
  if d.any (fun p => p.1 == k) then d.map (fun p => if p.1 == k then (k, v) else p)
  else d ++ [(k, v)]

/-- Python dict lookup. -/
def dictLookup (d : List (Nat × String)) (k : Nat) : Option String :=
  (d.find? (fun p => p.1 == k)).map (fun p => p.2)

/-- The keys of a dict, in insertion order. -/
def dictKeys (d : List (Nat × String)) : List Nat := d.map (fun p => p.1)

/-- The collection loop of `scan_ports`: `port, status = future.result()`
re-raises the worker's exception, abandoning the dict built so far. -/
def scanPortsLoop (connect : Nat → Except String Int) :
    List Nat → List (Nat × String) → Except String (List (Nat × String))
  | [], d => .ok d
  | port :: rest, d =>
    match scan_single_port (connect port) port with
    | .error e => .error e
    | .ok pr => scanPortsLoop connect rest (dictSet d pr.1 pr.2)

/-- `WebsiteAnalysis.scan_ports` (lines 152-171): one future is submitted
per entry of `ports`; `order` is the sequence of ports of those futures in
the order `as_completed` yields them (a permutation of `ports`); each
completed future contributes `results[port] = status`, and the first
future in completion order whose probe raised makes `future.result()`
re-raise, so the exception propagates out of `scan_ports` (the loop has no
`try`) and no dict is returned. -/
def scan_ports (connect : Nat → Except String Int) (order : List Nat) :
    Except String (List (Nat × String)) :=
  scanPortsLoop connect order []

/-! ## `NetworkDiagnostics.speed_test` -/

/-- Result dict of `speed_test`. -/
structure SpeedResult where
  download : ℚ
  upload : ℚ
  ping : ℚ
  error : Option String
deriving DecidableEq

/-- `NetworkDiagnostics.speed_test` (lines 41-110).  The oracles are the
three network interactions: `pingO` the elapsed seconds of the probe GET,
`downO` the bytes received and elapsed seconds of the download, `upO` the
elapsed seconds of the 1 MiB upload; `.error` models the call raising, in
which case the fields mutated so far are kept and `error` is set. -/
def speed_test (pingO : Except String ℚ) (downO : Except String (Nat × ℚ))
    (upO : Except String ℚ) : SpeedResult :=
  match pingO with
  | .error e => ⟨0, 0, 0, some e⟩
  | .ok pt =>
    let ping := pt * 1000
    match downO with
    | .error e => ⟨0, 0, ping, some e⟩
    | .ok (downloaded, dt) =>
      let download := if 0 < dt then ((downloaded : ℚ) * 8) / (dt * 1000000) else 0
      match upO with
      | .error e => ⟨download, 0, ping, some e⟩
      | .ok ut =>
        let upload := if 0 < ut then ((1048576 : ℚ) * 8) / (ut * 1000000) else 0
        ⟨download, upload, ping, none⟩

/-! ## Bounded worker pool

Modelled from the spec: the `concurrent.futures.ThreadPoolExecutor`
used by `network_scan` and `scan_ports` is an external collaborator; the
spec's Concurrent Probe Scheduler contract ("execute all probes with at
most C in flight simultaneously, and produce the multiset of ProbeOutcome
values as each completes") is rendered as a transition system: a task may
start only while fewer than `C` are running, and any running task may
finish. -/

/-- Scheduler state: tasks not yet started (in submission order), tasks in
flight, tasks completed (most recent first). -/
structure PoolState (α : Type) where
  pending : List α
  running : List α
  done : List α
deriving DecidableEq

/-- Modelled from the spec: one scheduler step — dispatch the next pending
task while below the ceiling, or complete any in-flight task. -/
inductive PoolStep (C : Nat) : PoolState α → PoolState α → Prop
  | start (t : α) (rest running done : List α) (h : running.length < C) :
      PoolStep C ⟨t :: rest, running, done⟩ ⟨rest, t :: running, done⟩
  | finish (pending r1 r2 done : List α) (t : α) :
      PoolStep C ⟨pending, r1 ++ t :: r2, done⟩ ⟨pending, r1 ++ r2, t :: done⟩

/-- Reflexive-transitive closure of scheduler steps. -/
inductive PoolReaches (C : Nat) : PoolState α → PoolState α → Prop
  | refl (s : PoolState α) : PoolReaches C s s
  | tail {s t u : PoolState α} : PoolReaches C s t → PoolStep C t u → PoolReaches C s u

/-- Initial state for a batch. -/
def initPool (tasks : List α) : PoolState α := ⟨tasks, [], []⟩

/-- A state from which no further step is possible. -/
def PoolDone (C : Nat) (s : PoolState α) : Prop := ∀ t : PoolState α, ¬ PoolStep C s t

/-! ## Theorems -/

instance {α β : Type} [DecidableEq α] [DecidableEq β] : DecidableEq (Except α β) :=
  fun a b =>
    match a, b with
    | .ok x, .ok y =>
      if h : x = y then isTrue (by rw [h]) else isFalse (by intro hh; cases hh; exact h rfl)
    | .error e, .error f =>
      if h : e = f then isTrue (by rw [h]) else isFalse (by intro hh; cases hh; exact h rfl)
    | .ok _, .error _ => isFalse (by intro hh; cases hh)
    | .error _, .ok _ => isFalse (by intro hh; cases hh)

/-- The packet-loss invariant claimed by the spec for a result dict. -/
def PLInvariant (res : PacketLossResult) : Prop :=
  res.sent = res.received + res.lost
  ∧ (0 < res.sent → res.loss_percentage = 100 * (res.lost : ℚ) / (res.sent : ℚ))
  ∧ (res.sent = 0 → res.loss_percentage = 100)

/-- C1 (counterexample): when the captured output contains no summary
pattern, the result keeps `sent = packets` while `received = lost = 0`, so
`sent == received + lost` fails — the claimed invariant does not hold for
every captured ping output. -/
theorem packet_loss_invariant_counterexample :
    ¬ ((packet_loss_analysis "Linux" 50 (.ok "no statistics in this output")).sent
      = (packet_loss_analysis "Linux" 50 (.ok "no statistics in this output")).received
        + (packet_loss_analysis "Linux" 50 (.ok "no statistics in this output")).lost) := by
  decide

/-- Introduction form of `PLInvariant` on an explicit result record. -/
theorem PLInvariant_mk (sent received lost : Int) (lp : ℚ) (err : Option String)
    (h1 : sent = received + lost) (h2 : 0 < sent → lp = 100 * (lost : ℚ) / (sent : ℚ))
    (h3 : sent = 0 → lp = 100) : PLInvariant ⟨sent, received, lost, lp, err⟩ :=
  ⟨h1, h2, h3⟩

/-- C1 (amended): the invariant holds whenever the per-OS summary pattern
is found — unconditionally on the POSIX branch, and on the Windows branch
provided the three parsed counts are themselves consistent; on a pattern
miss the result keeps `sent = packets` and `received = lost = 0` with a
zero loss percentage. -/
theorem packet_loss_invariant_amended :
    (∀ (packets : Int) (out : String) (s r : Nat), searchPosixPkt out = some (s, r) →
      PLInvariant (packet_loss_analysis "Linux" packets (.ok out)))
    ∧ (∀ (packets : Int) (out : String) (s r l : Nat), searchWinPkt out = some (s, r, l) →
        s = r + l → PLInvariant (packet_loss_analysis "Windows" packets (.ok out)))
    ∧ (∀ (packets : Int) (out : String), searchPosixPkt out = none →
        packet_loss_analysis "Linux" packets (.ok out) = ⟨packets, 0, 0, 0, none⟩)
    ∧ (∀ (packets : Int) (out : String), searchWinPkt out = none →
        packet_loss_analysis "Windows" packets (.ok out) = ⟨packets, 0, 0, 0, none⟩) := by
  have hlin : ("Linux" == "Windows") = false := rfl
  have hwin : ("Windows" == "Windows") = true := rfl
  refine ⟨?_, ?_, ?_, ?_⟩
  · intro packets out s r h
    by_cases hs : s = 0
    · have hres : packet_loss_analysis "Linux" packets (.ok out)
          = ⟨0, (r : Int), -(r : Int), 100, some "division by zero"⟩ := by
        subst hs
        simp only [packet_loss_analysis, hlin, Bool.false_eq_true, if_false, h]
        rfl
      rw [hres]
      exact PLInvariant_mk _ _ _ _ _ (by omega) (fun h0 => absurd h0 (by omega)) (fun _ => rfl)
    · have hs' : (s == 0) = false := by simp [hs]
      have hres : packet_loss_analysis "Linux" packets (.ok out)
          = ⟨(s : Int), (r : Int), (s : Int) - (r : Int),
              (((s : ℚ) - (r : ℚ)) / (s : ℚ)) * 100, none⟩ := by
        simp only [packet_loss_analysis, hlin, Bool.false_eq_true, if_false, h, hs']
      rw [hres]
      have hsq : (s : ℚ) ≠ 0 := by exact_mod_cast hs
      refine PLInvariant_mk _ _ _ _ _ (by omega) (fun _ => ?_)
        (fun h0 => absurd (by exact_mod_cast h0 : s = 0) hs)
      push_cast
      field_simp
      ring
  · intro packets out s r l h hcons
    by_cases hs : s = 0
    · have hres : packet_loss_analysis "Windows" packets (.ok out)
          = ⟨0, (r : Int), (l : Int), 100, some "division by zero"⟩ := by
        subst hs
        simp only [packet_loss_analysis, hwin, if_true, h]
        rfl
      rw [hres]
      exact PLInvariant_mk _ _ _ _ _ (by omega) (fun h0 => absurd h0 (by omega)) (fun _ => rfl)
    · have hs' : (s == 0) = false := by simp [hs]
      have hres : packet_loss_analysis "Windows" packets (.ok out)
          = ⟨(s : Int), (r : Int), (l : Int), ((l : ℚ) / (s : ℚ)) * 100, none⟩ := by
        simp only [packet_loss_analysis, hwin, if_true, h, hs', Bool.false_eq_true, if_false]
      rw [hres]
      have hsq : (s : ℚ) ≠ 0 := by exact_mod_cast hs
      refine PLInvariant_mk _ _ _ _ _ (by omega) (fun _ => ?_)
        (fun h0 => absurd (by exact_mod_cast h0 : s = 0) hs)
      push_cast
      field_simp
      ring
  · intro packets out h
    simp only [packet_loss_analysis, hlin, Bool.false_eq_true, if_false, h]
  · intro packets out h
    simp only [packet_loss_analysis, hwin, if_true, h]

/-- C1 (witness): the POSIX case of the amended invariant at the spec's
own fixture output. -/
theorem packet_loss_invariant_witness :
    searchPosixPkt "10 packets transmitted, 8 packets received, 20% packet loss" = some (10, 8)
    ∧ PLInvariant (packet_loss_analysis "Linux" 10
        (.ok "10 packets transmitted, 8 packets received, 20% packet loss")) :=
  ⟨by decide, packet_loss_invariant_amended.1 10 _ 10 8 (by decide)⟩

/-- C3: a subnet string rejected by CIDR validation makes `network_scan`
return `total_scanned = 0`, no active devices and a nonempty error, and
the result is the same for every probe oracle and completion order — the
batch-level error is produced before any probe is dispatched. -/
theorem network_scan_invalid_subnet :
    ∀ (subnet : String) (pingResp : String → Int) (fqdn : String → Option String)
      (order : List String),
      network_scan subnet none pingResp fqdn order
        = { active_devices := [], total_scanned := 0, total_active := none,
            error := some ("Subrede inválida: " ++ subnet) }
      ∧ ("Subrede inválida: " ++ subnet) ≠ "" := by
  intro subnet pingResp fqdn order
  refine ⟨rfl, ?_⟩
  intro h
  have hlen := congrArg String.length h
  rw [String.length_append] at hlen
  have h1 : 0 < ("Subrede inválida: " : String).length := by decide
  have h2 : ("" : String).length = 0 := rfl
  rw [h2] at hlen
  omega

/-- C6 (counterexample): `latency_check` copies the parsed Windows summary
fields verbatim, so a captured output claiming `Minimum = 5ms, Maximum =
3ms, Average = 10ms` produces a non-sentinel result with
`min = 5, avg = 10, max = 3`, violating `min ≤ avg ≤ max`. -/
theorem latency_ordering_counterexample :
    ¬ (((latency_check "Windows" (.ok "Minimum = 5ms, Maximum = 3ms, Average = 10ms")).min = 0
        ∧ (latency_check "Windows" (.ok "Minimum = 5ms, Maximum = 3ms, Average = 10ms")).avg = 0
        ∧ (latency_check "Windows" (.ok "Minimum = 5ms, Maximum = 3ms, Average = 10ms")).max = 0)
      ∨ ((latency_check "Windows" (.ok "Minimum = 5ms, Maximum = 3ms, Average = 10ms")).min
          ≤ (latency_check "Windows" (.ok "Minimum = 5ms, Maximum = 3ms, Average = 10ms")).avg
        ∧ (latency_check "Windows" (.ok "Minimum = 5ms, Maximum = 3ms, Average = 10ms")).avg
          ≤ (latency_check "Windows" (.ok "Minimum = 5ms, Maximum = 3ms, Average = 10ms")).max)) := by
  decide

/-- C6 (amended): the non-sentinel values of `latency_check` are the
summary fields parsed from the captured output, so `min ≤ avg ≤ max`
holds exactly when the captured triple is itself ordered — as it is in
every genuine ping summary; the code does not enforce the ordering. -/
theorem latency_ordering_amended :
    (∀ (out : String) (mn mx av : Nat), searchWinTimes out = some (mn, mx, av) →
      (mn : ℚ) ≤ (av : ℚ) → (av : ℚ) ≤ (mx : ℚ) →
      (latency_check "Windows" (.ok out)).min ≤ (latency_check "Windows" (.ok out)).avg
      ∧ (latency_check "Windows" (.ok out)).avg ≤ (latency_check "Windows" (.ok out)).max)
    ∧ (∀ (out : String) (mn av mx : ℚ), searchPosixTimes out = some (mn, av, mx) →
      mn ≤ av → av ≤ mx →
      (latency_check "Linux" (.ok out)).min ≤ (latency_check "Linux" (.ok out)).avg
      ∧ (latency_check "Linux" (.ok out)).avg ≤ (latency_check "Linux" (.ok out)).max) := by
  have hlin : ("Linux" == "Windows") = false := rfl
  have hwin : ("Windows" == "Windows") = true := rfl
  constructor
  · intro out mn mx av h h1 h2
    simp only [latency_check, hwin, if_true, h]
    exact ⟨h1, h2⟩
  · intro out mn av mx h h1 h2
    simp only [latency_check, hlin, Bool.false_eq_true, if_false, h]
    exact ⟨h1, h2⟩

/-- C6 (witness): the amended ordering at a well-formed Windows summary. -/
theorem latency_ordering_witness :
    searchWinTimes "Minimum = 1ms, Maximum = 9ms, Average = 5ms" = some (1, 9, 5)
    ∧ (latency_check "Windows" (.ok "Minimum = 1ms, Maximum = 9ms, Average = 5ms")).min
        ≤ (latency_check "Windows" (.ok "Minimum = 1ms, Maximum = 9ms, Average = 5ms")).avg
    ∧ (latency_check "Windows" (.ok "Minimum = 1ms, Maximum = 9ms, Average = 5ms")).avg
        ≤ (latency_check "Windows" (.ok "Minimum = 1ms, Maximum = 9ms, Average = 5ms")).max :=
  have h := latency_ordering_amended.1 "Minimum = 1ms, Maximum = 9ms, Average = 5ms"
    1 9 5 (by decide) (by norm_num) (by norm_num)
  ⟨by decide, h.1, h.2⟩

/-- C7: when the per-OS-family summary pattern is not found in the captured
output, `latency_check` returns the zero-valued "unavailable" sentinel with
no error and (being a total function of the captured outcome) raises
nothing past its boundary. -/
theorem latency_parse_miss_sentinel :
    (∀ out : String, searchWinTimes out = none →
      latency_check "Windows" (.ok out) = ⟨0, 0, 0, none⟩)
    ∧ (∀ os out : String, (os == "Windows") = false → searchPosixTimes out = none →
      latency_check os (.ok out) = ⟨0, 0, 0, none⟩) := by
  constructor
  · intro out h
    simp only [latency_check, show ("Windows" == "Windows") = true from rfl, if_true, h]
  · intro os out hos h
    simp only [latency_check, hos, Bool.false_eq_true, if_false, h]

/-- C7 (witness): the sentinel at a concrete unparseable output. -/
theorem latency_parse_miss_witness :
    searchPosixTimes "ping: unknown host example.invalid" = none
    ∧ latency_check "Linux" (.ok "ping: unknown host example.invalid") = ⟨0, 0, 0, none⟩ :=
  ⟨by decide,
   latency_parse_miss_sentinel.2 "Linux" "ping: unknown host example.invalid" (by decide) (by decide)⟩

/-- C8: each public diagnostics operation is a total function of its
inputs and of the outcomes of its underlying probes (so no exception
crosses the boundary in the embedding), and every probe failure is
encoded in the returned structure: the documented error field together
with the documented sentinel values. -/
theorem diagnostics_failure_encoded :
    (∀ (e : String) (dO : Except String (Nat × ℚ)) (uO : Except String ℚ),
      speed_test (.error e) dO uO = ⟨0, 0, 0, some e⟩)
    ∧ (∀ (pt : ℚ) (e : String) (uO : Except String ℚ),
      speed_test (.ok pt) (.error e) uO = ⟨0, 0, pt * 1000, some e⟩)
    ∧ (∀ (os e : String), latency_check os (.error e) = ⟨0, 0, 0, some e⟩)
    ∧ (∀ (os : String) (packets : Int) (e : String),
      packet_loss_analysis os packets (.error e) = ⟨packets, 0, 0, 100, some e⟩)
    ∧ (∀ (os e : String) (resolve : String → Option String),
      route_tracing os resolve (.error e) = [⟨1, "Error", "Error", 0, some e⟩])
    ∧ (∀ (subnet : String) (pingResp : String → Int) (fqdn : String → Option String)
        (order : List String),
      (network_scan subnet none pingResp fqdn order).error
        = some ("Subrede inválida: " ++ subnet)) :=
  ⟨fun _ _ _ => rfl, fun _ _ _ => rfl, fun _ _ => rfl, fun _ _ _ => rfl,
   fun _ _ _ => rfl, fun _ _ _ _ => rfl⟩

/-! ### Dictionary lemmas for `scan_ports` -/

theorem any_key_iff (d : List (Nat × String)) (k : Nat) :
    (d.any (fun p => p.1 == k)) = true ↔ k ∈ dictKeys d := by
  simp only [dictKeys, List.any_eq_true, List.mem_map, beq_iff_eq]

theorem keys_map_update (d : List (Nat × String)) (k : Nat) (v : String) :
    dictKeys (d.map (fun p => if p.1 == k then (k, v) else p)) = dictKeys d := by
  simp only [dictKeys, List.map_map]
  apply List.map_congr_left
  intro p _
  by_cases hp : p.1 = k
  · simp [hp]
  · simp [hp]

theorem mem_keys_dictSet (d : List (Nat × String)) (k : Nat) (v : String) (q : Nat) :
    q ∈ dictKeys (dictSet d k v) ↔ q ∈ dictKeys d ∨ q = k := by
  unfold dictSet
  by_cases hany : (d.any (fun p => p.1 == k)) = true
  · rw [if_pos hany, keys_map_update]
    have hk : k ∈ dictKeys d := (any_key_iff d k).mp hany
    constructor
    · exact Or.inl
    · rintro (h | rfl)
      · exact h
      · exact hk
  · rw [if_neg hany]
    simp [dictKeys]

theorem nodup_keys_dictSet (d : List (Nat × String)) (k : Nat) (v : String)
    (h : (dictKeys d).Nodup) : (dictKeys (dictSet d k v)).Nodup := by
  unfold dictSet
  by_cases hany : (d.any (fun p => p.1 == k)) = true
  · rw [if_pos hany, keys_map_update]
    exact h
  · rw [if_neg hany]
    have hk : k ∉ dictKeys d := fun hmem => hany ((any_key_iff d k).mpr hmem)
    simp only [dictKeys, List.map_append]
    rw [List.nodup_append]
    refine ⟨h, List.nodup_singleton k, ?_⟩
    intro a ha hb
    simp at hb
    subst hb
    exact hk ha

theorem find?_map_update_self (d : List (Nat × String)) (k : Nat) (v : String)
    (hmem : k ∈ dictKeys d) :
    ((d.map (fun p => if p.1 == k then (k, v) else p)).find? (fun p => p.1 == k))
      = some (k, v) := by
  induction d with
  | nil => simp [dictKeys] at hmem
  | cons p rest ih =>
    simp only [List.map_cons]
    by_cases hp : p.1 = k
    · have hfp : (if (p.1 == k) = true then (k, v) else p) = (k, v) := by simp [hp]
      rw [hfp]
      exact List.find?_cons_of_pos _ (by simp)
    · have hfp : (if (p.1 == k) = true then (k, v) else p) = p := by simp [hp]
      rw [hfp, List.find?_cons_of_neg _ (by simp [hp])]
      apply ih
      simp only [dictKeys, List.map_cons, List.mem_cons] at hmem
      rcases hmem with h | h
      · exact absurd h.symm hp
      · exact h

theorem find?_map_update_ne (d : List (Nat × String)) (k : Nat) (v : String) (q : Nat)
    (hne : q ≠ k) :
    ((d.map (fun p => if p.1 == k then (k, v) else p)).find? (fun p => p.1 == q))
      = d.find? (fun p => p.1 == q) := by
  induction d with
  | nil => simp
  | cons p rest ih =>
    simp only [List.map_cons]
    by_cases hp : p.1 = k
    · have hfp : (if (p.1 == k) = true then (k, v) else p) = (k, v) := by simp [hp]
      have hkq : ((k : Nat) == q) = false := by
        simp only [beq_eq_false_iff_ne]
        exact fun h => hne h.symm
      have hpq : (p.1 == q) = false := by rw [hp]; exact hkq
      rw [hfp, List.find?_cons, List.find?_cons]
      simp only [hkq, hpq]
      exact ih
    · have hfp : (if (p.1 == k) = true then (k, v) else p) = p := by simp [hp]
      rw [hfp, List.find?_cons, List.find?_cons]
      cases hq : (p.1 == q) with
      | true => rfl
      | false => exact ih

theorem find?_none_of_not_mem (d : List (Nat × String)) (k : Nat)
    (h : k ∉ dictKeys d) : d.find? (fun p => p.1 == k) = none := by
  rw [List.find?_eq_none]
  intro p hp
  simp only [beq_iff_eq]
  intro he
  exact h (List.mem_map.mpr ⟨p, hp, he⟩)

theorem dictLookup_dictSet_self (d : List (Nat × String)) (k : Nat) (v : String) :
    dictLookup (dictSet d k v) k = some v := by
  unfold dictSet dictLookup
  by_cases hany : (d.any (fun p => p.1 == k)) = true
  · rw [if_pos hany, find?_map_update_self d k v ((any_key_iff d k).mp hany)]
    rfl
  · rw [if_neg hany, List.find?_append,
      find?_none_of_not_mem d k (fun hmem => hany ((any_key_iff d k).mpr hmem))]
    simp

theorem dictLookup_dictSet_ne (d : List (Nat × String)) (k : Nat) (v : String) (q : Nat)
    (hne : q ≠ k) : dictLookup (dictSet d k v) q = dictLookup d q := by
  unfold dictSet dictLookup
  by_cases hany : (d.any (fun p => p.1 == k)) = true
  · rw [if_pos hany, find?_map_update_ne d k v q hne]
  · rw [if_neg hany, List.find?_append]
    have hkq : ((k : Nat) == q) = false := by
      simp only [beq_eq_false_iff_ne]
      exact fun h => hne h.symm
    have h1 : List.find? (fun p => p.1 == q) [(k, v)] = none := by
      simp [hkq]
    rw [h1]
    simp

/-- The classification a completing probe writes for its port, given the
code its `connect_ex` call returned. -/
def codeStatus (code : Int) : String := if code == 0 then "Open" else "Closed"

theorem scan_single_port_ok (code : Int) (port : Nat) :
    scan_single_port (.ok code) port = .ok (port, codeStatus code) := by
  simp only [scan_single_port, codeStatus]
  by_cases h : (code == 0) = true
  · rw [if_pos h, if_pos h]
  · rw [if_neg h, if_neg h]

/-- The status the probe for `p` writes, defined from its returned code
(the `"Closed"` default is never used under an all-codes hypothesis). -/
def statusOf (connect : Nat → Except String Int) (p : Nat) : String :=
  match connect p with
  | .ok code => codeStatus code
  | .error _ => "Closed"

theorem keys_foldl_mem (status : Nat → String) (order : List Nat) :
    ∀ (d : List (Nat × String)) (q : Nat),
      q ∈ dictKeys (order.foldl (fun d port => dictSet d port (status port)) d)
        ↔ q ∈ dictKeys d ∨ q ∈ order := by
  induction order with
  | nil => simp
  | cons p rest ih =>
    intro d q
    rw [List.foldl_cons, ih, mem_keys_dictSet]
    simp only [List.mem_cons]
    tauto

theorem keys_foldl_nodup (status : Nat → String) (order : List Nat) :
    ∀ d : List (Nat × String), (dictKeys d).Nodup →
      (dictKeys (order.foldl (fun d port => dictSet d port (status port)) d)).Nodup := by
  induction order with
  | nil => intro d h; exact h
  | cons p rest ih =>
    intro d h
    rw [List.foldl_cons]
    exact ih _ (nodup_keys_dictSet d p _ h)

theorem lookup_foldl (status : Nat → String) (order : List Nat) :
    ∀ (d : List (Nat × String)) (q : Nat),
      (q ∈ order ∨ dictLookup d q = some (status q)) →
      dictLookup (order.foldl (fun d port => dictSet d port (status port)) d) q
        = some (status q) := by
  induction order with
  | nil =>
    intro d q h
    rcases h with h | h
    · simp at h
    · exact h
  | cons p rest ih =>
    intro d q h
    rw [List.foldl_cons]
    by_cases hq : q = p
    · subst hq
      exact ih _ q (Or.inr (dictLookup_dictSet_self d q _))
    · rcases h with h | h
      · rcases List.mem_cons.mp h with h' | h'
        · exact absurd h' hq
        · exact ih _ q (Or.inl h')
      · exact ih _ q (Or.inr (by rw [dictLookup_dictSet_ne d p _ q hq]; exact h))

theorem scanPortsLoop_ok (connect : Nat → Except String Int) :
    ∀ (order : List Nat) (d : List (Nat × String)),
      (∀ p ∈ order, ∃ code : Int, connect p = .ok code) →
      scanPortsLoop connect order d
        = .ok (order.foldl (fun d port => dictSet d port (statusOf connect port)) d) := by
  intro order
  induction order with
  | nil => intro d _; rfl
  | cons p rest ih =>
    intro d hok
    obtain ⟨code, hcode⟩ := hok p (List.mem_cons_self p rest)
    have hst : statusOf connect p = codeStatus code := by simp [statusOf, hcode]
    simp only [scanPortsLoop, hcode, scan_single_port_ok]
    rw [List.foldl_cons, hst]
    exact ih _ (fun q hq => hok q (List.mem_cons_of_mem p hq))

theorem scanPortsLoop_error (connect : Nat → Except String Int) :
    ∀ (order : List Nat) (d : List (Nat × String)) (p : Nat) (e : String),
      p ∈ order → connect p = .error e →
      ∃ e' : String, scanPortsLoop connect order d = .error e' := by
  intro order
  induction order with
  | nil =>
    intro d p e hp _
    simp at hp
  | cons q rest ih =>
    intro d p e hp herr
    cases hq : connect q with
    | error e2 =>
      refine ⟨e2, ?_⟩
      simp [scanPortsLoop, hq, scan_single_port]
    | ok code =>
      simp only [scanPortsLoop, hq, scan_single_port_ok]
      rcases List.mem_cons.mp hp with heq | hp'
      · exfalso
        rw [heq] at herr
        rw [herr] at hq
        simp at hq
      · exact ih _ p e hp' herr

/-- C2 (counterexample): probes are not failure-isolated in `scan_ports`:
when one submitted probe raises (here `socket.gaierror`, as `connect_ex`
raises it for an unresolvable domain), `future.result()` re-raises and the
scan propagates the exception — no result dictionary with the submitted
ports as keys is returned at all. -/
theorem scan_ports_raise_counterexample :
    scan_ports (fun p => if p == 80 then .ok 0
        else .error "[Errno -2] Name or service not known") [80, 443]
      = .error "[Errno -2] Name or service not known"
    ∧ ¬ ∃ d : List (Nat × String),
        scan_ports (fun p => if p == 80 then .ok 0
            else .error "[Errno -2] Name or service not known") [80, 443] = .ok d := by
  have h : scan_ports (fun p => if p == 80 then .ok 0
      else .error "[Errno -2] Name or service not known") [80, 443]
      = .error "[Errno -2] Name or service not known" := by decide
  refine ⟨h, ?_⟩
  rintro ⟨d, hd⟩
  rw [h] at hd
  exact Except.noConfusion hd

/-- C2 (amended): when no submitted probe raises — every `connect_ex` call
returns an error code, refusal and timeout codes both classified
`"Closed"` — the scan returns, for every completion order, a dictionary
with exactly the submitted ports as keys, no duplicates and no omissions,
each port mapped to the status its own probe classified; when any
submitted probe raises (`socket.gaierror` on an unresolvable domain,
`OverflowError` on an out-of-range port), `future.result()` re-raises and
`scan_ports` propagates the exception instead of returning a dictionary. -/
theorem scan_ports_outcomes_amended :
    (∀ (connect : Nat → Except String Int) (ports order : List Nat), order.Perm ports →
      (∀ p ∈ ports, ∃ code : Int, connect p = .ok code) →
      ∃ d : List (Nat × String), scan_ports connect order = .ok d
        ∧ (dictKeys d).Nodup
        ∧ (∀ p : Nat, p ∈ dictKeys d ↔ p ∈ ports)
        ∧ (∀ p ∈ ports, ∃ st : String, scan_single_port (connect p) p = .ok (p, st)
            ∧ dictLookup d p = some st))
    ∧ (∀ (connect : Nat → Except String Int) (order : List Nat) (p : Nat) (e : String),
        p ∈ order → connect p = .error e →
        ∃ e' : String, scan_ports connect order = .error e') := by
  constructor
  · intro connect ports order hperm hok
    have hok' : ∀ p ∈ order, ∃ code : Int, connect p = .ok code :=
      fun p hp => hok p (hperm.mem_iff.mp hp)
    simp only [scan_ports]
    rw [scanPortsLoop_ok connect order [] hok']
    refine ⟨_, rfl, ?_, ?_, ?_⟩
    · exact keys_foldl_nodup (statusOf connect) order [] (by simp [dictKeys])
    · intro p
      rw [keys_foldl_mem]
      simp [dictKeys, hperm.mem_iff]
    · intro p hp
      obtain ⟨code, hcode⟩ := hok p hp
      refine ⟨codeStatus code, ?_, ?_⟩
      · rw [hcode, scan_single_port_ok]
      · have hst : statusOf connect p = codeStatus code := by simp [statusOf, hcode]
        rw [← hst]
        exact lookup_foldl (statusOf connect) order [] p (Or.inl (hperm.mem_iff.mpr hp))
  · intro connect order p e hp herr
    exact scanPortsLoop_error connect order [] p e hp herr

/-- C2 (witness): a three-port scan completing out of submission order
yields the complete dictionary, and a scan whose second-completing probe
raises propagates the exception. -/
theorem scan_ports_outcomes_witness :
    (∃ d : List (Nat × String),
      scan_ports (fun p => .ok (if p == 80 then 0 else 1)) [22, 80, 443] = .ok d
      ∧ (dictKeys d).Nodup
      ∧ (∀ p : Nat, p ∈ dictKeys d ↔ p ∈ [80, 443, 22])
      ∧ (∀ p ∈ [80, 443, 22], ∃ st : String,
          scan_single_port (.ok (if p == 80 then 0 else 1)) p = .ok (p, st)
          ∧ dictLookup d p = some st))
    ∧ ∃ e' : String,
      scan_ports (fun p => if p == 80 then .ok 0
          else .error "[Errno -2] Name or service not known") [80, 443] = .error e' :=
  ⟨scan_ports_outcomes_amended.1 (fun p => .ok (if p == 80 then 0 else 1))
      [80, 443, 22] [22, 80, 443] (by decide)
      (fun p _ => ⟨if p == 80 then 0 else 1, rfl⟩),
   scan_ports_outcomes_amended.2 (fun p => if p == 80 then .ok 0
      else .error "[Errno -2] Name or service not known") [80, 443] 443
      "[Errno -2] Name or service not known" (by decide) (by decide)⟩

/-! ### Sorting lemmas for `network_scan` -/

theorem lexLe_total : ∀ l1 l2 : List Int, lexLe l1 l2 || lexLe l2 l1 := by
  intro l1
  induction l1 with
  | nil => intro l2; simp [lexLe]
  | cons a t1 ih =>
    intro l2
    cases l2 with
    | nil => simp [lexLe]
    | cons b t2 =>
      simp only [lexLe]
      rcases lt_trichotomy a b with h | h | h
      · simp [h]
      · subst h
        simp only [lt_irrefl, if_false]
        exact ih t2
      · simp [h, not_lt_of_gt h]

theorem lexLe_trans : ∀ l1 l2 l3 : List Int,
    lexLe l1 l2 → lexLe l2 l3 → lexLe l1 l3 := by
  intro l1
  induction l1 with
  | nil => intro l2 l3 _ _; simp [lexLe]
  | cons a t1 ih =>
    intro l2 l3 h12 h23
    cases l2 with
    | nil => simp [lexLe] at h12
    | cons b t2 =>
      cases l3 with
      | nil => simp [lexLe] at h23
      | cons c t3 =>
        simp only [lexLe] at h12 h23 ⊢
        by_cases hab : a < b
        · by_cases hbc : b < c
          · simp [lt_trans hab hbc]
          · by_cases hcb : c < b
            · rw [if_neg hbc, if_pos hcb] at h23
              exact absurd h23 (by simp)
            · have hbceq : b = c := le_antisymm (not_lt.mp hcb) (not_lt.mp hbc)
              subst hbceq
              simp [hab]
        · by_cases hba : b < a
          · rw [if_neg hab, if_pos hba] at h12
            exact absurd h12 (by simp)
          · have habeq : a = b := le_antisymm (not_lt.mp hba) (not_lt.mp hab)
            subst habeq
            simp only [lt_irrefl, if_false] at h12
            by_cases hac : a < c
            · simp [hac]
            · by_cases hca : c < a
              · rw [if_neg hac, if_pos hca] at h23
                exact absurd h23 (by simp)
              · rw [if_neg hac, if_neg hca] at h23 ⊢
                exact ih t2 t3 h12 h23

theorem mem_insertDev (a : Device) : ∀ (l : List Device) (x : Device),
    x ∈ insertDev a l ↔ x = a ∨ x ∈ l := by
  intro l
  induction l with
  | nil => intro x; simp [insertDev]
  | cons b t ih =>
    intro x
    simp only [insertDev]
    by_cases hc : (devLe a b && !devLe b a) = true
    · rw [if_pos hc]
      simp only [List.mem_cons]
    · rw [if_neg hc]
      simp only [List.mem_cons, ih]
      tauto

theorem devLe_total : ∀ a b : Device, devLe a b || devLe b a := by
  intro a b
  exact lexLe_total (ipKey a.ip) (ipKey b.ip)

theorem devLe_trans : ∀ a b c : Device, devLe a b → devLe b c → devLe a c := by
  intro a b c h1 h2
  exact lexLe_trans _ _ _ h1 h2

theorem devLe_of_not_lt (a b : Device) (h : ¬ (devLe a b && !devLe b a) = true) :
    devLe b a = true := by
  by_cases hab : devLe a b = true
  · by_cases hba : devLe b a = true
    · exact hba
    · exact absurd (by simp [hab, hba]) h
  · have := devLe_total a b
    rw [Bool.or_eq_true] at this
    rcases this with h' | h'
    · exact absurd h' hab
    · exact h'

theorem pairwise_insertDev (a : Device) : ∀ l : List Device,
    l.Pairwise (fun x y => devLe x y = true) →
    (insertDev a l).Pairwise (fun x y => devLe x y = true) := by
  intro l
  induction l with
  | nil => intro _; simp [insertDev]
  | cons b t ih =>
    intro h
    rw [List.pairwise_cons] at h
    obtain ⟨hb, ht⟩ := h
    simp only [insertDev]
    by_cases hc : (devLe a b && !devLe b a) = true
    · rw [if_pos hc]
      have hab : devLe a b = true := by
        rw [Bool.and_eq_true] at hc
        exact hc.1
      rw [List.pairwise_cons]
      refine ⟨?_, ?_⟩
      · intro x hx
        rcases List.mem_cons.mp hx with rfl | hx'
        · exact hab
        · exact devLe_trans a b x hab (hb x hx')
      · rw [List.pairwise_cons]
        exact ⟨hb, ht⟩
    · rw [if_neg hc]
      rw [List.pairwise_cons]
      refine ⟨?_, ih ht⟩
      intro x hx
      rcases (mem_insertDev a t x).mp hx with hxa | hx'
      · rw [hxa]
        exact devLe_of_not_lt a b hc
      · exact hb x hx'

theorem sortDevices_sorted (ds : List Device) :
    (sortDevices ds).Pairwise (fun x y => devLe x y = true) := by
  unfold sortDevices
  have hgen : ∀ (l acc : List Device), acc.Pairwise (fun x y => devLe x y = true) →
      (l.foldl (fun acc d => insertDev d acc) acc).Pairwise (fun x y => devLe x y = true) := by
    intro l
    induction l with
    | nil => intro acc h; exact h
    | cons d t ih =>
      intro acc h
      rw [List.foldl_cons]
      exact ih _ (pairwise_insertDev d acc h)
  exact hgen ds [] (by simp)

/-- C4: every scan report produced without a batch-level error lists its
active devices sorted ascending by the numeric value of the dotted
address components. -/
theorem network_scan_sorted :
    ∀ (subnet : String) (subnetHosts : Option (List String)) (pingResp : String → Int)
      (fqdn : String → Option String) (order : List String),
      (network_scan subnet subnetHosts pingResp fqdn order).error = none →
      (network_scan subnet subnetHosts pingResp fqdn order).active_devices.Pairwise
        (fun a b => devLe a b = true) := by
  intro subnet subnetHosts pingResp fqdn order herr
  cases subnetHosts with
  | none => simp [network_scan] at herr
  | some allHosts =>
    simp only [network_scan] at herr ⊢
    by_cases hall : ((order.filterMap (check_ip pingResp fqdn)).map
        (fun d => ipKeyChecked d.ip)).all Option.isSome
    · rw [if_pos hall] at herr ⊢
      exact sortDevices_sorted _
    · rw [if_neg hall] at herr
      simp at herr

/-- C4 (witness): scanning three devices discovered out of numeric order
yields them sorted `10.0.0.2, 10.0.0.10, 10.0.1.1` — numeric, not
lexical, component order. -/
theorem network_scan_sorted_witness :
    (network_scan "10.0.0.0/24" (some ["10.0.0.10", "10.0.0.2", "10.0.1.1"]) (fun _ => 0)
        (fun _ => none) ["10.0.0.10", "10.0.0.2", "10.0.1.1"]).error = none
    ∧ (network_scan "10.0.0.0/24" (some ["10.0.0.10", "10.0.0.2", "10.0.1.1"]) (fun _ => 0)
        (fun _ => none) ["10.0.0.10", "10.0.0.2", "10.0.1.1"]).active_devices.Pairwise
        (fun a b => devLe a b = true)
    ∧ (network_scan "10.0.0.0/24" (some ["10.0.0.10", "10.0.0.2", "10.0.1.1"]) (fun _ => 0)
        (fun _ => none) ["10.0.0.10", "10.0.0.2", "10.0.1.1"]).active_devices.map Device.ip
        = ["10.0.0.2", "10.0.0.10", "10.0.1.1"] :=
  ⟨by decide, network_scan_sorted _ _ _ _ _ (by decide), by decide⟩

/-! ### Hop-parsing claims -/

/-- C5 (counterexample): the POSIX hop pattern requires at least one
numeric timing sample, so the all-star line ` 2  * * *` of this capture is
skipped entirely — the emitted hops are numbered 1 and 3 with no entry in
between, against the claim that such a line still yields a hop with time
0.0. -/
theorem hop_all_star_counterexample :
    (route_tracing "Linux" (fun _ => none)
      (.ok "traceroute to example.com (93.184.216.34), 30 hops max\n 1  192.168.1.1  0.5 ms  0.4 ms  0.6 ms\n 2  * * *\n 3  10.0.0.3  5.0 ms  7.0 ms")).map Hop.hop
      = [1, 3]
    ∧ (route_tracing "Linux" (fun _ => none)
      (.ok "traceroute to example.com (93.184.216.34), 30 hops max\n 1  192.168.1.1  0.5 ms  0.4 ms  0.6 ms\n 2  * * *\n 3  10.0.0.3  5.0 ms  7.0 ms")).length = 2 := by
  constructor
  · decide
  · decide

/-- C5 (amended): on the Windows branch a matched hop line whose three
timing fields are all a single `*` still emits a hop with time 0.0; on the
POSIX branch a line with no numeric sample is skipped (no hop emitted, so
numbering is not kept contiguous there); and every emitted hop whose line
has resolved samples carries the average of the resolved samples only,
`*` fields being excluded rather than zero-filled. -/
theorem hop_time_averaging_amended :
    (∀ (resolve : String → Option String) (line : List Char) (n : Nat) (rest : List Char),
      winSkipLine line = false →
      winHopAt line = some (n, ['*'], ['*'], ['*'], rest) →
      winLineHop resolve line
        = .ok (some ⟨n, resolveName resolve (pyStrip rest).asString,
            (pyStrip rest).asString, 0, none⟩))
    ∧ (∀ (resolve : String → Option String) (line : List Char) (h : Hop)
        (n : Nat) (f1 f2 f3 rest : List Char),
        winLineHop resolve line = .ok (some h) →
        winHopAt line = some (n, f1, f2, f3, rest) →
        ([f1, f2, f3].filter (fun t => t != ['*'])) ≠ [] →
        ∃ ts : List ℚ, floatsOf ([f1, f2, f3].filter (fun t => t != ['*'])) = .ok ts
          ∧ h.time = ts.sum / (ts.length : ℚ))
    ∧ (∀ (resolve : String → Option String) (line : List Char) (h : Hop),
        posixLineHop resolve line = .ok (some h) → findTimes line ≠ [] →
        ∃ ts : List ℚ, floatsOf (findTimes line) = .ok ts
          ∧ h.time = ts.sum / (ts.length : ℚ)) := by
  refine ⟨?_, ?_, ?_⟩
  · intro resolve line n rest hskip hmatch
    simp only [winLineHop, hskip, Bool.false_eq_true, if_false, hmatch]
    rfl
  · intro resolve line h n f1 f2 f3 rest hres hmatch hne
    have hne' : ([f1, f2, f3].filter (fun t => t != ['*'])).isEmpty = false := by
      cases hh : [f1, f2, f3].filter (fun t => t != ['*']) with
      | nil => exact absurd hh hne
      | cons x xs => rfl
    by_cases hskip : winSkipLine line = true
    · simp [winLineHop, hskip] at hres
    · rw [Bool.not_eq_true] at hskip
      simp only [winLineHop, hskip, Bool.false_eq_true, if_false, hmatch, hne'] at hres
      cases hfl : floatsOf ([f1, f2, f3].filter (fun t => t != ['*'])) with
      | error e =>
        rw [hfl] at hres
        simp at hres
      | ok ts =>
        rw [hfl] at hres
        simp only [Except.ok.injEq, Option.some.injEq] at hres
        refine ⟨ts, rfl, ?_⟩
        rw [← hres]
  · intro resolve line h hres hne
    have hne' : (findTimes line).isEmpty = false := by
      cases hh : findTimes line with
      | nil => exact absurd hh hne
      | cons x xs => rfl
    by_cases hskip : containsSub "traceroute to" line = true
    · simp [posixLineHop, hskip] at hres
    · rw [Bool.not_eq_true] at hskip
      cases hm : posixHopAt line with
      | none => simp [posixLineHop, hskip, hm] at hres
      | some pr =>
        obtain ⟨n, ipCs⟩ := pr
        simp only [posixLineHop, hskip, Bool.false_eq_true, if_false, hm, hne'] at hres
        cases hfl : floatsOf (findTimes line) with
        | error e =>
          rw [hfl] at hres
          simp at hres
        | ok ts =>
          rw [hfl] at hres
          simp only [Except.ok.injEq, Option.some.injEq] at hres
          refine ⟨ts, rfl, ?_⟩
          rw [← hres]

set_option allowUnsafeReducibility true in
attribute [local semireducible] Rat.add Rat.sub Rat.mul Rat.inv in
/-- C5 (witness): a Windows all-star line yields a time-0 hop, and a POSIX
line with samples `1.0` and `2.0` averages exactly those samples.  (The
rational operations are locally made reducible so `decide` can evaluate
the parsed averages.) -/
theorem hop_time_averaging_witness :
    winLineHop (fun _ => none) "  1   * ms  * ms  * ms  10.0.0.5".data
      = .ok (some ⟨1, resolveName (fun _ => none) (pyStrip "10.0.0.5".data).asString,
          (pyStrip "10.0.0.5".data).asString, 0, none⟩)
    ∧ ∃ ts : List ℚ, floatsOf (findTimes " 1  10.0.0.1  1.0 ms  2.0 ms".data) = .ok ts
        ∧ (⟨1, "10.0.0.1", "10.0.0.1", 3 / 2, none⟩ : Hop).time = ts.sum / (ts.length : ℚ) :=
  ⟨hop_time_averaging_amended.1 (fun _ => none) _ 1 "10.0.0.5".data (by decide) (by decide),
   hop_time_averaging_amended.2.2 (fun _ => none) " 1  10.0.0.1  1.0 ms  2.0 ms".data
     ⟨1, "10.0.0.1", "10.0.0.1", 3 / 2, none⟩ (by decide) (by decide)⟩

/-! ### Route-tracing error sentinel (C10) -/

/-- C10 (counterexample): an exception raised mid-parse (here a
`ValueError` from `float("1.2.3")` on the second hop line) appends the
sentinel to the hop already parsed, so the returned list has two elements,
not one. -/
theorem route_error_sentinel_counterexample :
    (route_tracing "Linux" (fun _ => none)
      (.ok " 1  10.0.0.1  1.0 ms  2.0 ms\n 2  10.0.0.2  1.2.3 ms  4 ms")).map Hop.host
      = ["10.0.0.1", "Error"]
    ∧ (route_tracing "Linux" (fun _ => none)
      (.ok " 1  10.0.0.1  1.0 ms  2.0 ms\n 2  10.0.0.2  1.2.3 ms  4 ms")).length = 2 := by
  constructor
  · decide
  · decide

/-- C10 (amended): when the traceroute invocation or the parsing raises,
`route_tracing` appends the sentinel hop `{hop: 1, host: "Error", ip:
"Error", time: 0, error: exception text}` to the hops parsed so far and
returns that never-empty list; it is exactly the one-element sentinel list
when the exception precedes any parsed hop — in particular whenever the
invocation itself fails. -/
theorem route_error_sentinel_amended :
    (∀ (os e : String) (resolve : String → Option String),
      route_tracing os resolve (.error e) = [⟨1, "Error", "Error", 0, some e⟩])
    ∧ (∀ (os output e : String) (resolve : String → Option String) (hops : List Hop),
        traceLines (if os == "Windows" then winLineHop resolve else posixLineHop resolve)
          (pySplitlines output.data) [] = .error (hops, e) →
        route_tracing os resolve (.ok output) = hops ++ [⟨1, "Error", "Error", 0, some e⟩]
        ∧ route_tracing os resolve (.ok output) ≠ []) := by
  constructor
  · intro os e resolve
    rfl
  · intro os output e resolve hops htr
    constructor
    · simp only [route_tracing, htr]
      rfl
    · simp only [route_tracing, htr]
      simp [errorHop]

/-- C10 (witness): a capture whose only hop line fails float conversion
returns exactly the one-element sentinel list. -/
theorem route_error_sentinel_witness :
    route_tracing "Linux" (fun _ => none) (.ok " 2  10.0.0.2  1.2.3 ms  4 ms")
      = [] ++ [⟨1, "Error", "Error", 0, some "could not convert string to float: '1.2.3'"⟩]
    ∧ route_tracing "Linux" (fun _ => none) (.ok " 2  10.0.0.2  1.2.3 ms  4 ms") ≠ []
    ∧ route_tracing "Linux" (fun _ => none) (.error "traceroute: command not found")
      = [⟨1, "Error", "Error", 0, some "traceroute: command not found"⟩] :=
  have h := route_error_sentinel_amended.2 "Linux" " 2  10.0.0.2  1.2.3 ms  4 ms"
    "could not convert string to float: '1.2.3'" (fun _ => none) [] (by decide)
  ⟨h.1, h.2, route_error_sentinel_amended.1 "Linux" "traceroute: command not found" (fun _ => none)⟩

/-! ### Bounded-pool claims (C9) -/

theorem poolStep_running_le {α : Type} (C : Nat) (s t : PoolState α)
    (h : PoolStep C s t) (hs : s.running.length ≤ C) : t.running.length ≤ C := by
  cases h with
  | start u rest running done hlt => simpa using hlt
  | finish pending r1 r2 done u =>
    simp only [List.length_append] at hs ⊢
    simp at hs
    omega

theorem poolStep_perm {α : Type} (C : Nat) (s t : PoolState α) (h : PoolStep C s t) :
    (t.pending ++ t.running ++ t.done).Perm (s.pending ++ s.running ++ s.done) := by
  cases h with
  | start u rest running done hlt =>
    exact List.Perm.append_right done List.perm_middle
  | finish pending r1 r2 done u =>
    have h1 : ((pending ++ (r1 ++ r2)) ++ u :: done).Perm
        (u :: ((pending ++ (r1 ++ r2)) ++ done)) := List.perm_middle
    have h2 : (r1 ++ u :: r2).Perm (u :: (r1 ++ r2)) := List.perm_middle
    have h3 : ((pending ++ (r1 ++ u :: r2)) ++ done).Perm
        ((pending ++ (u :: (r1 ++ r2))) ++ done) :=
      List.Perm.append_right done (List.Perm.append_left pending h2)
    have h4 : ((pending ++ (u :: (r1 ++ r2))) ++ done).Perm
        ((u :: (pending ++ (r1 ++ r2))) ++ done) :=
      List.Perm.append_right done List.perm_middle
    exact h1.trans (h3.trans h4).symm

theorem poolReaches_invariant {α : Type} (C : Nat) (tasks : List α) (s : PoolState α)
    (h : PoolReaches C (initPool tasks) s) :
    s.running.length ≤ C ∧ (s.pending ++ s.running ++ s.done).Perm tasks := by
  induction h with
  | refl => simp [initPool]
  | tail hreach hstep ih =>
    exact ⟨poolStep_running_le _ _ _ hstep ih.1, (poolStep_perm _ _ _ hstep).trans ih.2⟩

theorem no_step_of_empty {α : Type} (C : Nat) (done : List α) (t : PoolState α) :
    ¬ PoolStep C ⟨[], [], done⟩ t := by
  intro h
  generalize hS : (⟨[], [], done⟩ : PoolState α) = s at h
  cases h with
  | start u rest running d hlt => simp [PoolState.mk.injEq] at hS
  | finish pending r1 r2 d u =>
    simp only [PoolState.mk.injEq] at hS
    exact absurd hS.2.1 (by simp)

theorem poolDone_empty {α : Type} (C : Nat) (hC : 0 < C) (s : PoolState α)
    (h : PoolDone C s) : s.pending = [] ∧ s.running = [] := by
  obtain ⟨pending, running, done⟩ := s
  have hrun : running = [] := by
    cases hr : running with
    | nil => rfl
    | cons t r =>
      exfalso
      exact h ⟨pending, [] ++ r, t :: done⟩
        (by have hs := @PoolStep.finish C α pending [] r done t
            simpa [hr] using hs)
  subst hrun
  refine ⟨?_, rfl⟩
  cases hp : pending with
  | nil => rfl
  | cons t rest =>
    exfalso
    exact h ⟨rest, [t], done⟩
      (by have hs := @PoolStep.start C α t rest [] done (by simpa using hC)
          rw [hp]
          simpa using hs)

/-- C9: in the bounded-pool model, every state reachable from a submitted
batch keeps at most `C` probes in flight — `C = 20` for the subnet sweep of
`network_scan` and `C = 10` for the port sweep of `scan_ports` — and when
the pool can take no further step, every submitted probe has been executed
exactly once (the completed multiset is a permutation of the batch). -/
theorem bounded_pool_ceiling_and_completion :
    ∀ (α : Type) (tasks : List α) (s : PoolState α),
      (PoolReaches networkScanMaxWorkers (initPool tasks) s →
        s.running.length ≤ networkScanMaxWorkers
        ∧ (PoolDone networkScanMaxWorkers s → s.done.Perm tasks))
      ∧ (PoolReaches scanPortsMaxWorkers (initPool tasks) s →
        s.running.length ≤ scanPortsMaxWorkers
        ∧ (PoolDone scanPortsMaxWorkers s → s.done.Perm tasks)) := by
  have main : ∀ (C : Nat), 0 < C → ∀ (α : Type) (tasks : List α) (s : PoolState α),
      PoolReaches C (initPool tasks) s →
      s.running.length ≤ C ∧ (PoolDone C s → s.done.Perm tasks) := by
    intro C hC α tasks s hreach
    obtain ⟨hlen, hperm⟩ := poolReaches_invariant C tasks s hreach
    refine ⟨hlen, ?_⟩
    intro hdone
    obtain ⟨hpend, hrun⟩ := poolDone_empty C hC s hdone
    rw [hpend, hrun] at hperm
    simpa using hperm
  intro α tasks s
  exact ⟨main networkScanMaxWorkers (by decide) α tasks s,
    main scanPortsMaxWorkers (by decide) α tasks s⟩

/-- C9 (witness): a two-task batch driven to completion: two starts and two
finishes reach the terminal state, which respects the ceiling and holds
both outcomes. -/
theorem bounded_pool_witness :
    (⟨[], [], [7, 9]⟩ : PoolState Nat).running.length ≤ networkScanMaxWorkers
    ∧ (⟨[], [], [7, 9]⟩ : PoolState Nat).done.Perm [7, 9]
    ∧ (⟨[], [], [7, 9]⟩ : PoolState Nat).running.length ≤ scanPortsMaxWorkers := by
  have hdone : ∀ C : Nat, PoolDone C (⟨[], [], [7, 9]⟩ : PoolState Nat) :=
    fun C t h => no_step_of_empty C [7, 9] t h
  have htrace : ∀ C : Nat, 1 < C →
      PoolReaches C (initPool [7, 9]) (⟨[], [], [7, 9]⟩ : PoolState Nat) := by
    intro C hC
    have s1 : PoolStep C (initPool [7, 9]) ⟨[9], [7], []⟩ :=
      PoolStep.start 7 [9] [] [] (by simpa using Nat.lt_of_lt_of_le Nat.zero_lt_one hC.le)
    have s2 : PoolStep C ⟨[9], [7], []⟩ ⟨[], [9, 7], []⟩ :=
      PoolStep.start 9 [] [7] [] (by simpa using hC)
    have s3 : PoolStep C ⟨[], [9, 7], []⟩ ⟨[], [7], [9]⟩ := by
      have h9 := @PoolStep.finish C Nat [] [] [7] [] 9
      simpa using h9
    have s4 : PoolStep C ⟨[], [7], [9]⟩ ⟨[], [], [7, 9]⟩ := by
      have h7 := @PoolStep.finish C Nat [] [] [] [9] 7
      simpa using h7
    exact PoolReaches.tail (PoolReaches.tail (PoolReaches.tail
      (PoolReaches.tail (PoolReaches.refl _) s1) s2) s3) s4
  have h20 := (bounded_pool_ceiling_and_completion Nat [7, 9] ⟨[], [], [7, 9]⟩).1
    (htrace networkScanMaxWorkers (by decide))
  have h10 := (bounded_pool_ceiling_and_completion Nat [7, 9] ⟨[], [], [7, 9]⟩).2
    (htrace scanPortsMaxWorkers (by decide))
  exact ⟨h20.1, h20.2 (hdone _), h10.1⟩

end NetworkTool
